import Mathlib

/-!
Verification development for a memory-management simulator consisting of a
segment-based physical-memory allocator (first/best/worst fit placement,
splitting and coalescing of segments) and a direct-mapped cache level with a
FIFO replacement queue.  All definitions below are shallow embeddings of the
C++ sources `memory_manager.cpp` / `memory_manager.hpp` and
`cache_simulator.cpp` / `cache_simulator.hpp`; `size_t` values are modelled
as `Nat` (the only place where the machine width matters is the sentinel
`SIZE_MAX` used by the best-fit search, which is modelled explicitly), `int`
process ids as `Int`, fallible lookups as `Option`, and the `double`-valued
derived rates as `Rat` (the claims under study only concern their exactly
representable zero branch).
-/

/-- The value of `SIZE_MAX` on the 64-bit platform the source targets,
used by `find_suitable_segment_best_fit` as the initial sentinel. -/
def SIZE_MAX : Nat := 2 ^ 64 - 1

/-- One segment of the simulated heap (class `MemorySegment`):
base address, size, availability flag and owning process id (-1 if free). -/
structure MemorySegment where
  base_address : Nat
  segment_size : Nat
  is_available : Bool
  process_id : Int
deriving Repr, DecidableEq

/-- Default segment used when reading past the end of a list. -/
def defaultSegment : MemorySegment := ⟨0, 0, true, -1⟩

/-- `MemorySegment::can_accommodate`: free and at least the required size. -/
def can_accommodate (s : MemorySegment) (required_size : Nat) : Bool :=
  s.is_available && decide (required_size ≤ s.segment_size)

/-- Allocator counters (struct `MemoryStatistics`). -/
structure MemoryStatistics where
  total_allocation_attempts : Nat
  successful_allocations : Nat
  failed_allocations : Nat
deriving Repr, DecidableEq

/-- `MemoryStatistics::record_allocation_attempt`. -/
def record_allocation_attempt (st : MemoryStatistics) : MemoryStatistics :=
  { st with total_allocation_attempts := st.total_allocation_attempts + 1 }

/-- `MemoryStatistics::record_successful_allocation`. -/
def record_successful_allocation (st : MemoryStatistics) : MemoryStatistics :=
  { st with successful_allocations := st.successful_allocations + 1 }

/-- `MemoryStatistics::record_failed_allocation`. -/
def record_failed_allocation (st : MemoryStatistics) : MemoryStatistics :=
  { st with failed_allocations := st.failed_allocations + 1 }

/-- `MemoryStatistics::get_success_rate`: 0 when no attempt was recorded,
otherwise `100 * successes / attempts` (the `double` arithmetic of the
source is modelled over `Rat`; the guarded zero branch is exact). -/
def MemoryStatistics.get_success_rate (st : MemoryStatistics) : Rat :=
  if st.total_allocation_attempts = 0 then 0
  else (100 * st.successful_allocations : Rat) / st.total_allocation_attempts

/-- `enum class AllocationStrategy`. -/
inductive AllocationStrategy
  | FIRST_FIT
  | BEST_FIT
  | WORST_FIT
deriving Repr, DecidableEq

/-- The allocator state (class `PhysicalMemorySimulator`). -/
structure PhysicalMemorySimulator where
  heap_segments : List MemorySegment
  total_memory_capacity : Nat
  next_process_identifier : Int
  current_strategy : AllocationStrategy
  performance_stats : MemoryStatistics
deriving Repr, DecidableEq

/-- The default-constructed simulator (`PhysicalMemorySimulator()`). -/
def PhysicalMemorySimulator.initial : PhysicalMemorySimulator :=
  ⟨[], 0, 1, AllocationStrategy.FIRST_FIT, ⟨0, 0, 0⟩⟩

/-- `PhysicalMemorySimulator::initialize_memory_pool` (source name kept up
to the `init` abbreviation): one free segment spanning the pool, process id
counter back to 1, fresh statistics; the strategy is not changed. -/
def init_memory_pool (total_size : Nat) (sim : PhysicalMemorySimulator) :
    PhysicalMemorySimulator :=
  { sim with
      total_memory_capacity := total_size,
      heap_segments := [⟨0, total_size, true, -1⟩],
      next_process_identifier := 1,
      performance_stats := ⟨0, 0, 0⟩ }

/-- `PhysicalMemorySimulator::set_allocation_strategy`. -/
def set_allocation_strategy (strategy : AllocationStrategy)
    (sim : PhysicalMemorySimulator) : PhysicalMemorySimulator :=
  { sim with current_strategy := strategy }

/-- The loop body of `find_suitable_segment_first_fit`: scan in index
order, return the first index whose segment can accommodate the request. -/
def firstFitGo (required_size : Nat) :
    List MemorySegment → Nat → Option Nat
  | [], _ => none
  | s :: rest, i =>
    if can_accommodate s required_size then some i
    else firstFitGo required_size rest (i + 1)

/-- `PhysicalMemorySimulator::find_suitable_segment_first_fit` (the `-1`
failure sentinel of the source is modelled as `none`). -/
def find_suitable_segment_first_fit (segs : List MemorySegment)
    (required_size : Nat) : Option Nat :=
  firstFitGo required_size segs 0

/-- The loop of `find_suitable_segment_best_fit`, carrying the running best
index and the running `smallest_suitable_size` (seeded with `SIZE_MAX`);
an update happens only on a strictly smaller qualifying size. -/
def bestFitGo (required_size : Nat) :
    List MemorySegment → Nat → Option Nat → Nat → Option Nat
  | [], _, best_index, _ => best_index
  | s :: rest, i, best_index, smallest_suitable_size =>
    if can_accommodate s required_size &&
        decide (s.segment_size < smallest_suitable_size) then
      bestFitGo required_size rest (i + 1) (some i) s.segment_size
    else
      bestFitGo required_size rest (i + 1) best_index smallest_suitable_size

/-- `PhysicalMemorySimulator::find_suitable_segment_best_fit`. -/
def find_suitable_segment_best_fit (segs : List MemorySegment)
    (required_size : Nat) : Option Nat :=
  bestFitGo required_size segs 0 none SIZE_MAX

/-- The loop of `find_suitable_segment_worst_fit`, carrying the running
`largest_suitable_size` (seeded with 0); an update happens only on a
strictly larger qualifying size. -/
def worstFitGo (required_size : Nat) :
    List MemorySegment → Nat → Option Nat → Nat → Option Nat
  | [], _, worst_index, _ => worst_index
  | s :: rest, i, worst_index, largest_suitable_size =>
    if can_accommodate s required_size &&
        decide (largest_suitable_size < s.segment_size) then
      worstFitGo required_size rest (i + 1) (some i) s.segment_size
    else
      worstFitGo required_size rest (i + 1) worst_index largest_suitable_size

/-- `PhysicalMemorySimulator::find_suitable_segment_worst_fit`. -/
def find_suitable_segment_worst_fit (segs : List MemorySegment)
    (required_size : Nat) : Option Nat :=
  worstFitGo required_size segs 0 none 0

/-- `PhysicalMemorySimulator::split_memory_segment`: if the segment at the
given index is strictly larger than the allocation, shrink it to the
allocation size and insert the free remainder right after it. -/
def split_memory_segment : Nat → Nat → List MemorySegment → List MemorySegment
  | 0, allocation_size, s :: rest =>
    if allocation_size < s.segment_size then
      { s with segment_size := allocation_size } ::
        MemorySegment.mk (s.base_address + allocation_size)
          (s.segment_size - allocation_size) true (-1) :: rest
    else s :: rest
  | i + 1, allocation_size, s :: rest =>
    s :: split_memory_segment i allocation_size rest
  | _, _, [] => []

/-- The two field assignments performed by `allocate_memory_block` on the
chosen segment: mark it allocated and store the assigned process id. -/
def setAllocatedAt : Nat → Int → List MemorySegment → List MemorySegment
  | 0, pid, s :: rest => { s with is_available := false, process_id := pid } :: rest
  | i + 1, pid, s :: rest => s :: setAllocatedAt i pid rest
  | _, _, [] => []

/-- `PhysicalMemorySimulator::allocate_memory_block`: record the attempt,
reject zero-size requests, search per the active strategy, then split the
chosen segment and mark it allocated with a fresh process id.  Returns the
assigned pid (or the `-1` failure value) together with the new state. -/
def allocate_memory_block (requested_size : Nat)
    (sim : PhysicalMemorySimulator) : Int × PhysicalMemorySimulator :=
  if requested_size = 0 then
    (-1, { sim with performance_stats :=
        record_failed_allocation (record_allocation_attempt sim.performance_stats) })
  else
    match (match sim.current_strategy with
      | AllocationStrategy.FIRST_FIT =>
          find_suitable_segment_first_fit sim.heap_segments requested_size
      | AllocationStrategy.BEST_FIT =>
          find_suitable_segment_best_fit sim.heap_segments requested_size
      | AllocationStrategy.WORST_FIT =>
          find_suitable_segment_worst_fit sim.heap_segments requested_size) with
    | none => (-1, { sim with performance_stats :=
        record_failed_allocation (record_allocation_attempt sim.performance_stats) })
    | some segment_index =>
      (sim.next_process_identifier,
        { sim with
            heap_segments := setAllocatedAt segment_index sim.next_process_identifier
              (split_memory_segment segment_index requested_size sim.heap_segments),
            next_process_identifier := sim.next_process_identifier + 1,
            performance_stats :=
              record_successful_allocation (record_allocation_attempt sim.performance_stats) })

/-- The pair of segments at positions `i` and `i + 1`, when both exist. -/
def pairAt : Nat → List MemorySegment → Option (MemorySegment × MemorySegment)
  | 0, a :: b :: _ => some (a, b)
  | i + 1, _ :: rest => pairAt i rest
  | _, _ => none

/-- `PhysicalMemorySimulator::merge_with_next_segment`: if the segments at
positions `i` and `i + 1` are address-contiguous, extend the first by the
second's size and erase the second; otherwise leave the list unchanged. -/
def merge_with_next_segment : Nat → List MemorySegment → List MemorySegment
  | 0, a :: b :: rest =>
    if a.base_address + a.segment_size = b.base_address then
      { a with segment_size := a.segment_size + b.segment_size } :: rest
    else a :: b :: rest
  | i + 1, a :: rest => a :: merge_with_next_segment i rest
  | _, l => l

/-- The loop of `merge_adjacent_free_segments`, made explicit: at index `i`
(while `i < size - 1`) a both-free pair triggers `merge_with_next_segment`
and the index is re-examined (`--i` followed by the loop's `++i`), otherwise
the index advances.  The C++ loop does not terminate when a both-free pair
is not address-contiguous (the merge is then a no-op and the index never
advances), so the embedding spends one unit of `fuel` per iteration and
returns `none` when the fuel runs out. -/
def mergeLoop (fuel i : Nat) (segs : List MemorySegment) :
    Option (List MemorySegment) :=
  match pairAt i segs with
  | none => some segs
  | some (a, b) =>
    match fuel with
    | 0 => none
    | fuel' + 1 =>
      if a.is_available && b.is_available then
        mergeLoop fuel' i (merge_with_next_segment i segs)
      else
        mergeLoop fuel' (i + 1) segs

/-- `PhysicalMemorySimulator::merge_adjacent_free_segments`, run with fuel
`2 * length` (proved sufficient for every contiguous segment list). -/
def merge_adjacent_free_segments (segs : List MemorySegment) :
    List MemorySegment :=
  (mergeLoop (2 * segs.length) 0 segs).getD segs

/-- The scan of `deallocate_memory_block`: free the first allocated segment
whose process id matches, or report `none` when there is no match. -/
def markFreeByPid (process_id : Int) :
    List MemorySegment → Option (List MemorySegment)
  | [] => none
  | s :: rest =>
    if !s.is_available && s.process_id == process_id then
      some ({ s with is_available := true, process_id := -1 } :: rest)
    else
      (markFreeByPid process_id rest).map (s :: ·)

/-- `PhysicalMemorySimulator::deallocate_memory_block`: free the matching
segment and coalesce, returning `true`; return `false` with the state
unchanged when the process id is not found. -/
def deallocate_memory_block (process_id : Int)
    (sim : PhysicalMemorySimulator) : Bool × PhysicalMemorySimulator :=
  match markFreeByPid process_id sim.heap_segments with
  | some segs =>
    (true, { sim with heap_segments := merge_adjacent_free_segments segs })
  | none => (false, sim)

/-- One external allocator request, as issued by the command layer. -/
inductive AllocatorOp
  | alloc (requested_size : Nat)
  | dealloc (process_id : Int)
  | setStrategy (strategy : AllocationStrategy)
deriving Repr, DecidableEq

/-- Apply one allocator request to the state. -/
def applyOp (sim : PhysicalMemorySimulator) : AllocatorOp → PhysicalMemorySimulator
  | AllocatorOp.alloc n => (allocate_memory_block n sim).2
  | AllocatorOp.dealloc pid => (deallocate_memory_block pid sim).2
  | AllocatorOp.setStrategy st => set_allocation_strategy st sim

/-- Run a sequence of allocator requests. -/
def runOps (ops : List AllocatorOp) (sim : PhysicalMemorySimulator) :
    PhysicalMemorySimulator :=
  ops.foldl applyOp sim

/-- The segment list covers exactly the address range starting at `a`:
the first segment is based at `a` and each segment is followed directly by
the next (this is the coverage and contiguity part of the data-model
invariant). -/
def coversFrom (a : Nat) : List MemorySegment → Bool
  | [] => true
  | s :: rest => (s.base_address == a) && coversFrom (a + s.segment_size) rest

/-- Sum of the segment sizes. -/
def sumSizes : List MemorySegment → Nat
  | [] => 0
  | s :: rest => s.segment_size + sumSizes rest

/-- Every segment has a non-zero size. -/
def allPos : List MemorySegment → Bool
  | [] => true
  | s :: rest => (s.segment_size != 0) && allPos rest

/-- Every adjacent pair of segments is address-contiguous. -/
def adjacent_contiguous : List MemorySegment → Bool
  | a :: b :: rest =>
    (a.base_address + a.segment_size == b.base_address) &&
      adjacent_contiguous (b :: rest)
  | _ => true

/-- The adjacent pair at position `i` consists of two free segments. -/
def bothFreeAt (i : Nat) (l : List MemorySegment) : Bool :=
  match pairAt i l with
  | some (a, b) => a.is_available && b.is_available
  | none => false

/-- No two consecutive segments are both free. -/
def no_adjacent_free : List MemorySegment → Bool
  | a :: b :: rest =>
    (!(a.is_available && b.is_available)) && no_adjacent_free (b :: rest)
  | _ => true

/-- The reachability invariant of the allocator: the segment list covers
`[0, C)` contiguously, its sizes sum to `C`, all sizes are non-zero, and
the recorded capacity is `C`. -/
def SegInv (C : Nat) (sim : PhysicalMemorySimulator) : Prop :=
  sim.total_memory_capacity = C ∧
  coversFrom 0 sim.heap_segments = true ∧
  sumSizes sim.heap_segments = C ∧
  allPos sim.heap_segments = true

/-- One cache line (struct `CacheBlock`). -/
structure CacheBlock where
  valid : Bool
  tag : Nat
  data_address : Nat
deriving Repr, DecidableEq

/-- The default-constructed cache block, which is also the result of
`CacheBlock::invalidate` on any block. -/
def CacheBlock.init : CacheBlock := ⟨false, 0, 0⟩

/-- `CacheBlock::invalidate`. -/
def CacheBlock.invalidate (_ : CacheBlock) : CacheBlock := ⟨false, 0, 0⟩

/-- Cache counters (struct `CacheMetrics`). -/
structure CacheMetrics where
  total_accesses : Nat
  cache_hits : Nat
  cache_misses : Nat
deriving Repr, DecidableEq

/-- `CacheMetrics::record_hit`. -/
def record_hit (m : CacheMetrics) : CacheMetrics :=
  { m with total_accesses := m.total_accesses + 1, cache_hits := m.cache_hits + 1 }

/-- `CacheMetrics::record_miss`. -/
def record_miss (m : CacheMetrics) : CacheMetrics :=
  { m with total_accesses := m.total_accesses + 1, cache_misses := m.cache_misses + 1 }

/-- `CacheMetrics::get_hit_ratio`: 0 when no access was recorded, otherwise
`100 * hits / accesses` over `Rat` (the guarded zero branch is exact). -/
def CacheMetrics.get_hit_ratio (m : CacheMetrics) : Rat :=
  if m.total_accesses = 0 then 0
  else (100 * m.cache_hits : Rat) / m.total_accesses

/-- `CacheMetrics::get_miss_ratio`: 0 when no access was recorded. -/
def CacheMetrics.get_miss_ratio (m : CacheMetrics) : Rat :=
  if m.total_accesses = 0 then 0
  else (100 * m.cache_misses : Rat) / m.total_accesses

/-- One cache level (class `CacheLevel`): block array, FIFO queue of block
indices (front of the `std::queue` is the head of the list), configuration
and metrics. -/
structure CacheLevel where
  cache_blocks : List CacheBlock
  fifo_queue : List Nat
  cache_size_bytes : Nat
  block_size_bytes : Nat
  number_of_blocks : Nat
  performance_metrics : CacheMetrics
deriving Repr, DecidableEq

/-- The `CacheLevel` constructor: fails (throws, modelled as `none`) on a
zero block size or when the capacity holds less than one block; otherwise
`capacity / block_size` invalid blocks and an empty FIFO queue. -/
def CacheLevel.construct (cache_size block_size : Nat) : Option CacheLevel :=
  if block_size = 0 then none
  else
    let n := cache_size / block_size
    if n = 0 then none
    else some ⟨List.replicate n CacheBlock.init, [], cache_size, block_size, n, ⟨0, 0, 0⟩⟩

/-- `CacheLevel::calculate_block_index`. -/
def calculate_block_index (c : CacheLevel) (memory_address : Nat) : Nat :=
  (memory_address / c.block_size_bytes) % c.number_of_blocks

/-- `CacheLevel::extract_tag`. -/
def extract_tag (c : CacheLevel) (memory_address : Nat) : Nat :=
  memory_address / (c.block_size_bytes * c.number_of_blocks)

/-- `CacheLevel::evict_oldest_block`: pop the front of the FIFO queue and
invalidate the block at that index (a no-op on an empty queue). -/
def evict_oldest_block (c : CacheLevel) : CacheLevel :=
  match c.fifo_queue with
  | [] => c
  | oldest_block :: rest =>
    { c with
        fifo_queue := rest,
        cache_blocks := c.cache_blocks.set oldest_block CacheBlock.init }

/-- `CacheLevel::access_memory`: hit iff the block at the computed index is
valid with a matching tag; otherwise record a miss, evict the oldest block
when the target slot is occupied, populate the target slot and push its
index on the FIFO queue.  Returns the hit flag with the new state. -/
def access_memory (c : CacheLevel) (memory_address : Nat) : Bool × CacheLevel :=
  let block_index := calculate_block_index c memory_address
  let tag := extract_tag c memory_address
  let blk := c.cache_blocks.getD block_index CacheBlock.init
  if blk.valid && blk.tag == tag then
    (true, { c with performance_metrics := record_hit c.performance_metrics })
  else
    let c1 := { c with performance_metrics := record_miss c.performance_metrics }
    let c2 := if blk.valid then evict_oldest_block c1 else c1
    (false,
      { c2 with
          cache_blocks := c2.cache_blocks.set block_index ⟨true, tag, memory_address⟩,
          fifo_queue := c2.fifo_queue ++ [block_index] })

/-- `CacheLevel::flush_cache`: invalidate every block and clear the FIFO
queue; the metrics are untouched. -/
def flush_cache (c : CacheLevel) : CacheLevel :=
  { c with
      cache_blocks := c.cache_blocks.map CacheBlock.invalidate,
      fifo_queue := [] }

/-- Run a list of accesses, collecting the hit flag of each. -/
def runAccesses (c : CacheLevel) : List Nat → List Bool × CacheLevel
  | [] => ([], c)
  | a :: rest =>
    let r := access_memory c a
    let r2 := runAccesses r.2 rest
    (r.1 :: r2.1, r2.2)

/-- Spec-side predicate (following the spec's words in §8, strategy
determinism): no segment of the layout qualifies for the request. -/
def NoQualifyingSegment (segs : List MemorySegment) (n : Nat) : Prop :=
  ∀ j t, segs.get? j = some t → can_accommodate t n = false

/-- Spec-side predicate following the spec's words: position `i` holds a
qualifying segment whose size is minimal among all qualifying segments,
and every qualifying segment at an earlier index is strictly larger
(so the earliest index wins ties). -/
def BestFitSpecChoice (segs : List MemorySegment) (n i : Nat) : Prop :=
  ∃ s, segs.get? i = some s ∧ can_accommodate s n = true ∧
    (∀ j t, segs.get? j = some t → can_accommodate t n = true →
      s.segment_size ≤ t.segment_size) ∧
    (∀ j t, j < i → segs.get? j = some t → can_accommodate t n = true →
      s.segment_size < t.segment_size)

/-- Spec-side predicate following the spec's words: position `i` holds a
qualifying segment whose size is maximal among all qualifying segments,
and every qualifying segment at an earlier index is strictly smaller. -/
def WorstFitSpecChoice (segs : List MemorySegment) (n i : Nat) : Prop :=
  ∃ s, segs.get? i = some s ∧ can_accommodate s n = true ∧
    (∀ j t, segs.get? j = some t → can_accommodate t n = true →
      t.segment_size ≤ s.segment_size) ∧
    (∀ j t, j < i → segs.get? j = some t → can_accommodate t n = true →
      t.segment_size < s.segment_size)

/-- What the spec demands of the best-fit search result. -/
def BestFitPost (segs : List MemorySegment) (n : Nat) : Option Nat → Prop
  | none => NoQualifyingSegment segs n
  | some i => BestFitSpecChoice segs n i

/-- What the spec demands of the worst-fit search result. -/
def WorstFitPost (segs : List MemorySegment) (n : Nat) : Option Nat → Prop
  | none => NoQualifyingSegment segs n
  | some i => WorstFitSpecChoice segs n i

/-! ### Structural lemmas about `pairAt` and `merge_with_next_segment` -/

lemma pairAt_some_length :
    ∀ (i : Nat) (l : List MemorySegment) (p : MemorySegment × MemorySegment),
      pairAt i l = some p → i + 1 < l.length := by
  intro i
  induction i with
  | zero =>
    intro l p h
    cases l with
    | nil => simp [pairAt] at h
    | cons a rest =>
      cases rest with
      | nil => simp [pairAt] at h
      | cons b r => simp [List.length_cons]
  | succ i ih =>
    intro l p h
    cases l with
    | nil => simp [pairAt] at h
    | cons a rest =>
      have h2 := ih rest p h
      simp only [List.length_cons]
      omega

lemma pairAt_none_length :
    ∀ (i : Nat) (l : List MemorySegment),
      pairAt i l = none → l.length ≤ i + 1 := by
  intro i
  induction i with
  | zero =>
    intro l h
    cases l with
    | nil => simp
    | cons a rest =>
      cases rest with
      | nil => simp
      | cons b r => simp [pairAt] at h
  | succ i ih =>
    intro l h
    cases l with
    | nil => simp
    | cons a rest =>
      have h2 := ih rest h
      simp only [List.length_cons]
      omega

lemma pairAt_none_of_length :
    ∀ (i : Nat) (l : List MemorySegment), l.length ≤ i + 1 → pairAt i l = none := by
  intro i
  induction i with
  | zero =>
    intro l h
    cases l with
    | nil => rfl
    | cons a rest =>
      cases rest with
      | nil => rfl
      | cons b r => simp at h
  | succ i ih =>
    intro l h
    cases l with
    | nil => rfl
    | cons a rest =>
      exact ih rest (by simp at h; omega)

lemma bothFreeAt_some (i : Nat) (l : List MemorySegment) (a b : MemorySegment)
    (h : pairAt i l = some (a, b)) :
    bothFreeAt i l = (a.is_available && b.is_available) := by
  unfold bothFreeAt
  rw [h]

lemma bothFreeAt_none (i : Nat) (l : List MemorySegment)
    (h : pairAt i l = none) : bothFreeAt i l = false := by
  unfold bothFreeAt
  rw [h]

lemma merge_head (i : Nat) (x : MemorySegment) (rest : List MemorySegment) :
    ∃ y rest2, merge_with_next_segment i (x :: rest) = y :: rest2 ∧
      y.base_address = x.base_address ∧ y.is_available = x.is_available := by
  cases i with
  | zero =>
    cases rest with
    | nil => exact ⟨x, [], rfl, rfl, rfl⟩
    | cons b r =>
      by_cases h : x.base_address + x.segment_size = b.base_address
      · exact ⟨{ x with segment_size := x.segment_size + b.segment_size }, r,
          by simp [merge_with_next_segment, h], rfl, rfl⟩
      · exact ⟨x, b :: r, by simp [merge_with_next_segment, h], rfl, rfl⟩
  | succ i => exact ⟨x, merge_with_next_segment i rest, rfl, rfl, rfl⟩

lemma merge_nil (i : Nat) : merge_with_next_segment i [] = [] := by
  cases i <;> rfl

lemma merge_contig :
    ∀ (i : Nat) (l : List MemorySegment),
      adjacent_contiguous l = true →
      adjacent_contiguous (merge_with_next_segment i l) = true := by
  intro i
  induction i with
  | zero =>
    intro l h
    cases l with
    | nil => exact h
    | cons a rest =>
      cases rest with
      | nil => exact h
      | cons b r =>
        by_cases hc : a.base_address + a.segment_size = b.base_address
        · rw [show merge_with_next_segment 0 (a :: b :: r) =
              { a with segment_size := a.segment_size + b.segment_size } :: r from
              by simp [merge_with_next_segment, hc]]
          cases r with
          | nil => rfl
          | cons c r2 =>
            simp only [adjacent_contiguous, Bool.and_eq_true, beq_iff_eq] at h ⊢
            obtain ⟨h1, h2, h3⟩ := h
            refine ⟨?_, h3⟩
            show a.base_address + (a.segment_size + b.segment_size) = c.base_address
            omega
        · simpa [merge_with_next_segment, hc] using h
  | succ i ih =>
    intro l h
    cases l with
    | nil => exact h
    | cons x rest =>
      show adjacent_contiguous (x :: merge_with_next_segment i rest) = true
      cases rest with
      | nil => rw [merge_nil]; rfl
      | cons z r =>
        obtain ⟨y, rest2, hy, hyb, hya⟩ := merge_head i z r
        rw [hy]
        simp only [adjacent_contiguous, Bool.and_eq_true, beq_iff_eq] at h
        have h2 := ih (z :: r) h.2
        rw [hy] at h2
        rw [show adjacent_contiguous (x :: y :: rest2) =
            ((x.base_address + x.segment_size == y.base_address) &&
              adjacent_contiguous (y :: rest2)) from rfl, Bool.and_eq_true, beq_iff_eq]
        exact ⟨by rw [hyb]; exact h.1, h2⟩

lemma pairAt_contig :
    ∀ (i : Nat) (l : List MemorySegment) (a b : MemorySegment),
      adjacent_contiguous l = true → pairAt i l = some (a, b) →
      a.base_address + a.segment_size = b.base_address := by
  intro i
  induction i with
  | zero =>
    intro l a b h hp
    cases l with
    | nil => simp [pairAt] at hp
    | cons x rest =>
      cases rest with
      | nil => simp [pairAt] at hp
      | cons y r =>
        simp only [pairAt, Option.some.injEq, Prod.mk.injEq] at hp
        obtain ⟨hx, hy⟩ := hp
        subst hx; subst hy
        simp only [adjacent_contiguous, Bool.and_eq_true, beq_iff_eq] at h
        exact h.1
  | succ i ih =>
    intro l a b h hp
    cases l with
    | nil => simp [pairAt] at hp
    | cons x rest =>
      refine ih rest a b ?_ hp
      cases rest with
      | nil => rfl
      | cons y r =>
        simp only [adjacent_contiguous, Bool.and_eq_true, beq_iff_eq] at h
        exact h.2

lemma merge_length :
    ∀ (i : Nat) (l : List MemorySegment) (a b : MemorySegment),
      pairAt i l = some (a, b) → a.base_address + a.segment_size = b.base_address →
      (merge_with_next_segment i l).length + 1 = l.length := by
  intro i
  induction i with
  | zero =>
    intro l a b hp hc
    cases l with
    | nil => simp [pairAt] at hp
    | cons x rest =>
      cases rest with
      | nil => simp [pairAt] at hp
      | cons y r =>
        simp only [pairAt, Option.some.injEq, Prod.mk.injEq] at hp
        obtain ⟨hx, hy⟩ := hp
        subst hx; subst hy
        simp [merge_with_next_segment, hc]
  | succ i ih =>
    intro l a b hp hc
    cases l with
    | nil => simp [pairAt] at hp
    | cons x rest =>
      have h2 := ih rest a b hp hc
      show (x :: merge_with_next_segment i rest).length + 1 = (x :: rest).length
      simp only [List.length_cons]
      omega

lemma merge_length_le :
    ∀ (i : Nat) (l : List MemorySegment),
      (merge_with_next_segment i l).length ≤ l.length := by
  intro i
  induction i with
  | zero =>
    intro l
    cases l with
    | nil => simp [merge_with_next_segment]
    | cons a rest =>
      cases rest with
      | nil => simp [merge_with_next_segment]
      | cons b r =>
        by_cases hc : a.base_address + a.segment_size = b.base_address
        · simp [merge_with_next_segment, hc]
        · simp [merge_with_next_segment, hc]
  | succ i ih =>
    intro l
    cases l with
    | nil => simp [merge_with_next_segment]
    | cons x rest =>
      show (x :: merge_with_next_segment i rest).length ≤ (x :: rest).length
      simp only [List.length_cons]
      exact Nat.succ_le_succ (ih rest)

lemma merge_covers :
    ∀ (i : Nat) (l : List MemorySegment) (x : Nat),
      coversFrom x l = true → coversFrom x (merge_with_next_segment i l) = true := by
  intro i
  induction i with
  | zero =>
    intro l x h
    cases l with
    | nil => exact h
    | cons a rest =>
      cases rest with
      | nil => exact h
      | cons b r =>
        simp only [coversFrom, Bool.and_eq_true, beq_iff_eq] at h
        obtain ⟨ha, hb, hr⟩ := h
        have hc : a.base_address + a.segment_size = b.base_address := by omega
        rw [show merge_with_next_segment 0 (a :: b :: r) =
            { a with segment_size := a.segment_size + b.segment_size } :: r from
            by simp [merge_with_next_segment, hc]]
        simp only [coversFrom, Bool.and_eq_true, beq_iff_eq]
        refine ⟨ha, ?_⟩
        have : x + (a.segment_size + b.segment_size) = x + a.segment_size + b.segment_size := by
          omega
        rw [this]
        exact hr
  | succ i ih =>
    intro l x h
    cases l with
    | nil => exact h
    | cons s rest =>
      show coversFrom x (s :: merge_with_next_segment i rest) = true
      simp only [coversFrom, Bool.and_eq_true, beq_iff_eq] at h ⊢
      exact ⟨h.1, ih rest (x + s.segment_size) h.2⟩

lemma merge_sum :
    ∀ (i : Nat) (l : List MemorySegment),
      sumSizes (merge_with_next_segment i l) = sumSizes l := by
  intro i
  induction i with
  | zero =>
    intro l
    cases l with
    | nil => rfl
    | cons a rest =>
      cases rest with
      | nil => rfl
      | cons b r =>
        by_cases hc : a.base_address + a.segment_size = b.base_address
        · simp [merge_with_next_segment, hc, sumSizes]
          omega
        · simp [merge_with_next_segment, hc]
  | succ i ih =>
    intro l
    cases l with
    | nil => rfl
    | cons s rest =>
      show sumSizes (s :: merge_with_next_segment i rest) = sumSizes (s :: rest)
      simp only [sumSizes]
      rw [ih rest]

lemma merge_allPos :
    ∀ (i : Nat) (l : List MemorySegment),
      allPos l = true → allPos (merge_with_next_segment i l) = true := by
  intro i
  induction i with
  | zero =>
    intro l h
    cases l with
    | nil => exact h
    | cons a rest =>
      cases rest with
      | nil => exact h
      | cons b r =>
        by_cases hc : a.base_address + a.segment_size = b.base_address
        · simp only [allPos, Bool.and_eq_true, bne_iff_ne, ne_eq] at h ⊢
          obtain ⟨h1, h2, h3⟩ := h
          rw [show merge_with_next_segment 0 (a :: b :: r) =
              { a with segment_size := a.segment_size + b.segment_size } :: r from
              by simp [merge_with_next_segment, hc]]
          simp only [allPos, Bool.and_eq_true, bne_iff_ne, ne_eq]
          exact ⟨by omega, h3⟩
        · simpa [merge_with_next_segment, hc] using h
  | succ i ih =>
    intro l h
    cases l with
    | nil => exact h
    | cons s rest =>
      show allPos (s :: merge_with_next_segment i rest) = true
      simp only [allPos, Bool.and_eq_true] at h ⊢
      exact ⟨h.1, ih rest h.2⟩

lemma bothFreeAt_merge :
    ∀ (i : Nat) (l : List MemorySegment) (j : Nat), j < i →
      bothFreeAt j (merge_with_next_segment i l) = bothFreeAt j l := by
  intro i
  induction i with
  | zero => intro l j hj; omega
  | succ i ih =>
    intro l j hj
    cases l with
    | nil => rfl
    | cons x rest =>
      cases j with
      | zero =>
        cases rest with
        | nil =>
          show bothFreeAt 0 (x :: merge_with_next_segment i []) = bothFreeAt 0 [x]
          rw [merge_nil]
        | cons z r =>
          obtain ⟨y, rest2, hy, hyb, hya⟩ := merge_head i z r
          show bothFreeAt 0 (x :: merge_with_next_segment i (z :: r)) =
            bothFreeAt 0 (x :: z :: r)
          rw [hy]
          show (x.is_available && y.is_available) = (x.is_available && z.is_available)
          rw [hya]
      | succ j =>
        show bothFreeAt j (merge_with_next_segment i rest) = bothFreeAt j rest
        exact ih rest j (by omega)

lemma noAdj_of_bothFree :
    ∀ (l : List MemorySegment), (∀ j, bothFreeAt j l = false) →
      no_adjacent_free l = true := by
  intro l
  induction l with
  | nil => intro _; rfl
  | cons a rest ih =>
    intro h
    cases rest with
    | nil => rfl
    | cons b r =>
      rw [show no_adjacent_free (a :: b :: r) =
          ((!(a.is_available && b.is_available)) && no_adjacent_free (b :: r)) from rfl,
        Bool.and_eq_true, Bool.not_eq_true']
      exact ⟨h 0, ih (fun j => h (j + 1))⟩

/-! ### Lemmas about the coalescing loop -/

lemma mergeLoop_preserves (P : List MemorySegment → Prop)
    (hP : ∀ i l, P l → P (merge_with_next_segment i l)) :
    ∀ (fuel i : Nat) (segs r : List MemorySegment),
      mergeLoop fuel i segs = some r → P segs → P r := by
  intro fuel
  induction fuel with
  | zero =>
    intro i segs r h hp
    rw [mergeLoop] at h
    cases hpair : pairAt i segs with
    | none =>
      rw [hpair] at h
      cases h
      exact hp
    | some p =>
      obtain ⟨a, b⟩ := p
      rw [hpair] at h
      cases h
  | succ fuel ih =>
    intro i segs r h hp
    rw [mergeLoop] at h
    cases hpair : pairAt i segs with
    | none =>
      rw [hpair] at h
      cases h
      exact hp
    | some p =>
      obtain ⟨a, b⟩ := p
      rw [hpair] at h
      have h' : (if a.is_available && b.is_available then
          mergeLoop fuel i (merge_with_next_segment i segs)
        else mergeLoop fuel (i + 1) segs) = some r := h
      by_cases hav : a.is_available && b.is_available
      · rw [if_pos hav] at h'
        exact ih i (merge_with_next_segment i segs) r h' (hP i segs hp)
      · rw [if_neg hav] at h'
        exact ih (i + 1) segs r h' hp

lemma mergeLoop_isSome :
    ∀ (fuel i : Nat) (segs : List MemorySegment),
      adjacent_contiguous segs = true → 2 * segs.length ≤ fuel + i →
      (mergeLoop fuel i segs).isSome = true := by
  intro fuel
  induction fuel with
  | zero =>
    intro i segs hcont hfuel
    rw [mergeLoop]
    cases hpair : pairAt i segs with
    | none => rfl
    | some p =>
      exfalso
      have := pairAt_some_length i segs p hpair
      omega
  | succ fuel ih =>
    intro i segs hcont hfuel
    rw [mergeLoop]
    cases hpair : pairAt i segs with
    | none => rfl
    | some p =>
      obtain ⟨a, b⟩ := p
      show (if a.is_available && b.is_available then
          mergeLoop fuel i (merge_with_next_segment i segs)
        else mergeLoop fuel (i + 1) segs).isSome = true
      by_cases hav : a.is_available && b.is_available
      · rw [if_pos hav]
        have hc := pairAt_contig i segs a b hcont hpair
        have hlen := merge_length i segs a b hpair hc
        exact ih i (merge_with_next_segment i segs) (merge_contig i segs hcont) (by omega)
      · rw [if_neg hav]
        have := pairAt_some_length i segs (a, b) hpair
        exact ih (i + 1) segs hcont (by omega)

lemma mergeLoop_noAdjFree :
    ∀ (fuel i : Nat) (segs r : List MemorySegment),
      mergeLoop fuel i segs = some r →
      (∀ j, j < i → bothFreeAt j segs = false) →
      ∀ j, bothFreeAt j r = false := by
  intro fuel
  induction fuel with
  | zero =>
    intro i segs r h hpre j
    rw [mergeLoop] at h
    cases hpair : pairAt i segs with
    | none =>
      rw [hpair] at h
      cases h
      by_cases hj : j < i
      · exact hpre j hj
      · have hlen := pairAt_none_length i segs hpair
        exact bothFreeAt_none j segs (pairAt_none_of_length j segs (by omega))
    | some p =>
      obtain ⟨a, b⟩ := p
      rw [hpair] at h
      cases h
  | succ fuel ih =>
    intro i segs r h hpre j
    rw [mergeLoop] at h
    cases hpair : pairAt i segs with
    | none =>
      rw [hpair] at h
      cases h
      by_cases hj : j < i
      · exact hpre j hj
      · have hlen := pairAt_none_length i segs hpair
        exact bothFreeAt_none j segs (pairAt_none_of_length j segs (by omega))
    | some p =>
      obtain ⟨a, b⟩ := p
      rw [hpair] at h
      have h' : (if a.is_available && b.is_available then
          mergeLoop fuel i (merge_with_next_segment i segs)
        else mergeLoop fuel (i + 1) segs) = some r := h
      by_cases hav : a.is_available && b.is_available
      · rw [if_pos hav] at h'
        refine ih i (merge_with_next_segment i segs) r h' ?_ j
        intro j' hj'
        rw [bothFreeAt_merge i segs j' hj']
        exact hpre j' hj'
      · rw [if_neg hav] at h'
        refine ih (i + 1) segs r h' ?_ j
        intro j' hj'
        by_cases hji : j' < i
        · exact hpre j' hji
        · have : j' = i := by omega
          subst this
          rw [bothFreeAt_some j' segs a b hpair]
          exact Bool.eq_false_iff.mpr hav

/-- Everything `mergeLoop` preserves is preserved by the total wrapper. -/
lemma mergeAll_preserves (P : List MemorySegment → Prop)
    (hP : ∀ i l, P l → P (merge_with_next_segment i l))
    (segs : List MemorySegment) (hp : P segs) :
    P (merge_adjacent_free_segments segs) := by
  unfold merge_adjacent_free_segments
  cases h : mergeLoop (2 * segs.length) 0 segs with
  | none => exact hp
  | some r => exact mergeLoop_preserves P hP (2 * segs.length) 0 segs r h hp

lemma covers_contig :
    ∀ (x : Nat) (l : List MemorySegment),
      coversFrom x l = true → adjacent_contiguous l = true := by
  intro x l
  induction l generalizing x with
  | nil => intro _; rfl
  | cons a rest ih =>
    intro h
    cases rest with
    | nil => rfl
    | cons b r =>
      simp only [coversFrom, Bool.and_eq_true, beq_iff_eq] at h
      obtain ⟨ha, hb, hr⟩ := h
      rw [show adjacent_contiguous (a :: b :: r) =
          ((a.base_address + a.segment_size == b.base_address) &&
            adjacent_contiguous (b :: r)) from rfl, Bool.and_eq_true, beq_iff_eq]
      constructor
      · omega
      · refine ih (x + a.segment_size) ?_
        simp only [coversFrom, Bool.and_eq_true, beq_iff_eq]
        exact ⟨hb, hr⟩

lemma chain'_contig_of_covers :
    ∀ (x : Nat) (l : List MemorySegment), coversFrom x l = true →
      List.Chain' (fun s t => s.base_address + s.segment_size = t.base_address) l := by
  intro x l
  induction l generalizing x with
  | nil => intro _; simp
  | cons a rest ih =>
    intro h
    cases rest with
    | nil => simp
    | cons b r =>
      simp only [coversFrom, Bool.and_eq_true, beq_iff_eq] at h
      obtain ⟨ha, hb, hr⟩ := h
      refine List.chain'_cons.mpr ⟨by omega, ?_⟩
      refine ih (x + a.segment_size) ?_
      simp only [coversFrom, Bool.and_eq_true, beq_iff_eq]
      exact ⟨hb, hr⟩

lemma chain'_lt_of_covers :
    ∀ (x : Nat) (l : List MemorySegment), coversFrom x l = true → allPos l = true →
      List.Chain' (fun s t => s.base_address < t.base_address) l := by
  intro x l
  induction l generalizing x with
  | nil => intro _ _; simp
  | cons a rest ih =>
    intro h hpos
    cases rest with
    | nil => simp
    | cons b r =>
      simp only [coversFrom, Bool.and_eq_true, beq_iff_eq] at h
      obtain ⟨ha, hb, hr⟩ := h
      simp only [allPos, Bool.and_eq_true, bne_iff_ne, ne_eq] at hpos
      obtain ⟨hpa, hpb, hpr⟩ := hpos
      refine List.chain'_cons.mpr ⟨by omega, ?_⟩
      refine ih (x + a.segment_size) ?_ ?_
      · simp only [coversFrom, Bool.and_eq_true, beq_iff_eq]
        exact ⟨hb, hr⟩
      · simp only [allPos, Bool.and_eq_true, bne_iff_ne, ne_eq]
        exact ⟨hpb, hpr⟩

/-! ### Preservation of the segment-list invariant by the operations -/

lemma split_covers :
    ∀ (i n : Nat) (l : List MemorySegment) (x : Nat),
      coversFrom x l = true → coversFrom x (split_memory_segment i n l) = true := by
  intro i
  induction i with
  | zero =>
    intro n l x h
    cases l with
    | nil => exact h
    | cons s rest =>
      by_cases hlt : n < s.segment_size
      · rw [show split_memory_segment 0 n (s :: rest) =
            ({ s with segment_size := n } ::
              MemorySegment.mk (s.base_address + n) (s.segment_size - n) true (-1) :: rest)
            from by simp [split_memory_segment, hlt]]
        simp only [coversFrom, Bool.and_eq_true, beq_iff_eq] at h ⊢
        obtain ⟨hb, hr⟩ := h
        refine ⟨hb, by omega, ?_⟩
        rw [show x + n + (s.segment_size - n) = x + s.segment_size from by omega]
        exact hr
      · simpa [split_memory_segment, hlt] using h
  | succ i ih =>
    intro n l x h
    cases l with
    | nil => exact h
    | cons s rest =>
      show coversFrom x (s :: split_memory_segment i n rest) = true
      simp only [coversFrom, Bool.and_eq_true, beq_iff_eq] at h ⊢
      exact ⟨h.1, ih n rest (x + s.segment_size) h.2⟩

lemma split_sum :
    ∀ (i n : Nat) (l : List MemorySegment),
      sumSizes (split_memory_segment i n l) = sumSizes l := by
  intro i
  induction i with
  | zero =>
    intro n l
    cases l with
    | nil => rfl
    | cons s rest =>
      by_cases hlt : n < s.segment_size
      · rw [show split_memory_segment 0 n (s :: rest) =
            ({ s with segment_size := n } ::
              MemorySegment.mk (s.base_address + n) (s.segment_size - n) true (-1) :: rest)
            from by simp [split_memory_segment, hlt]]
        show n + (s.segment_size - n + sumSizes rest) = s.segment_size + sumSizes rest
        omega
      · simp [split_memory_segment, hlt]
  | succ i ih =>
    intro n l
    cases l with
    | nil => rfl
    | cons s rest =>
      show sumSizes (s :: split_memory_segment i n rest) = sumSizes (s :: rest)
      simp only [sumSizes]
      rw [ih n rest]

lemma split_allPos :
    ∀ (i n : Nat) (l : List MemorySegment), n ≠ 0 →
      allPos l = true → allPos (split_memory_segment i n l) = true := by
  intro i
  induction i with
  | zero =>
    intro n l hn h
    cases l with
    | nil => exact h
    | cons s rest =>
      by_cases hlt : n < s.segment_size
      · rw [show split_memory_segment 0 n (s :: rest) =
            ({ s with segment_size := n } ::
              MemorySegment.mk (s.base_address + n) (s.segment_size - n) true (-1) :: rest)
            from by simp [split_memory_segment, hlt]]
        simp only [allPos, Bool.and_eq_true, bne_iff_ne, ne_eq] at h ⊢
        exact ⟨hn, by omega, h.2⟩
      · simpa [split_memory_segment, hlt] using h
  | succ i ih =>
    intro n l hn h
    cases l with
    | nil => exact h
    | cons s rest =>
      show allPos (s :: split_memory_segment i n rest) = true
      simp only [allPos, Bool.and_eq_true] at h ⊢
      exact ⟨h.1, ih n rest hn h.2⟩

lemma setAlloc_covers :
    ∀ (i : Nat) (pid : Int) (l : List MemorySegment) (x : Nat),
      coversFrom x (setAllocatedAt i pid l) = coversFrom x l := by
  intro i
  induction i with
  | zero =>
    intro pid l x
    cases l with
    | nil => rfl
    | cons s rest => rfl
  | succ i ih =>
    intro pid l x
    cases l with
    | nil => rfl
    | cons s rest =>
      show coversFrom x (s :: setAllocatedAt i pid rest) = coversFrom x (s :: rest)
      simp only [coversFrom]
      rw [ih pid rest (x + s.segment_size)]

lemma setAlloc_sum :
    ∀ (i : Nat) (pid : Int) (l : List MemorySegment),
      sumSizes (setAllocatedAt i pid l) = sumSizes l := by
  intro i
  induction i with
  | zero =>
    intro pid l
    cases l with
    | nil => rfl
    | cons s rest => rfl
  | succ i ih =>
    intro pid l
    cases l with
    | nil => rfl
    | cons s rest =>
      show sumSizes (s :: setAllocatedAt i pid rest) = sumSizes (s :: rest)
      simp only [sumSizes]
      rw [ih pid rest]

lemma setAlloc_allPos :
    ∀ (i : Nat) (pid : Int) (l : List MemorySegment),
      allPos (setAllocatedAt i pid l) = allPos l := by
  intro i
  induction i with
  | zero =>
    intro pid l
    cases l with
    | nil => rfl
    | cons s rest => rfl
  | succ i ih =>
    intro pid l
    cases l with
    | nil => rfl
    | cons s rest =>
      show allPos (s :: setAllocatedAt i pid rest) = allPos (s :: rest)
      simp only [allPos]
      rw [ih pid rest]

lemma markFree_cons (pid : Int) (s : MemorySegment) (rest : List MemorySegment) :
    markFreeByPid pid (s :: rest) =
      if !s.is_available && s.process_id == pid then
        some ({ s with is_available := true, process_id := -1 } :: rest)
      else (markFreeByPid pid rest).map (s :: ·) := rfl

lemma markFree_props :
    ∀ (pid : Int) (l l' : List MemorySegment), markFreeByPid pid l = some l' →
      (∀ x, coversFrom x l' = coversFrom x l) ∧
      sumSizes l' = sumSizes l ∧ allPos l' = allPos l := by
  intro pid l
  induction l with
  | nil => intro l' h; cases h
  | cons s rest ih =>
    intro l' h
    by_cases hcond : (!s.is_available && s.process_id == pid) = true
    · rw [markFree_cons, if_pos hcond] at h
      cases h
      exact ⟨fun x => rfl, rfl, rfl⟩
    · rw [markFree_cons, if_neg hcond] at h
      cases hm : markFreeByPid pid rest with
      | none => rw [hm] at h; cases h
      | some r' =>
        rw [hm] at h
        cases h
        obtain ⟨hc, hs, hp⟩ := ih r' hm
        refine ⟨fun x => ?_, ?_, ?_⟩
        · show coversFrom x (s :: r') = coversFrom x (s :: rest)
          simp only [coversFrom]
          rw [hc (x + s.segment_size)]
        · show sumSizes (s :: r') = sumSizes (s :: rest)
          simp only [sumSizes]
          rw [hs]
        · show allPos (s :: r') = allPos (s :: rest)
          simp only [allPos]
          rw [hp]

lemma markFree_none :
    ∀ (pid : Int) (l : List MemorySegment),
      (∀ s ∈ l, s.is_available = true ∨ s.process_id ≠ pid) →
      markFreeByPid pid l = none := by
  intro pid l
  induction l with
  | nil => intro _; rfl
  | cons s rest ih =>
    intro h
    have hcond : (!s.is_available && s.process_id == pid) = false := by
      rcases h s (List.mem_cons_self s rest) with h1 | h1
      · simp [h1]
      · simp [h1]
    rw [markFree_cons, if_neg (by rw [hcond]; exact Bool.false_ne_true)]
    rw [ih (fun t ht => h t (List.mem_cons_of_mem s ht))]
    rfl

/-- Case equation: zero-size allocation. -/
lemma allocate_zero (sim : PhysicalMemorySimulator) :
    allocate_memory_block 0 sim =
      (-1, { sim with performance_stats :=
        record_failed_allocation (record_allocation_attempt sim.performance_stats) }) := rfl

/-- Case equation: positive request, no qualifying segment. -/
lemma allocate_pos_none (n : Nat) (sim : PhysicalMemorySimulator) (hn : n ≠ 0)
    (hf : (match sim.current_strategy with
      | AllocationStrategy.FIRST_FIT => find_suitable_segment_first_fit sim.heap_segments n
      | AllocationStrategy.BEST_FIT => find_suitable_segment_best_fit sim.heap_segments n
      | AllocationStrategy.WORST_FIT => find_suitable_segment_worst_fit sim.heap_segments n)
      = none) :
    allocate_memory_block n sim =
      (-1, { sim with performance_stats :=
        record_failed_allocation (record_allocation_attempt sim.performance_stats) }) := by
  unfold allocate_memory_block
  rw [if_neg hn, hf]

/-- Case equation: positive request, a segment was chosen. -/
lemma allocate_pos_some (n : Nat) (sim : PhysicalMemorySimulator) (idx : Nat) (hn : n ≠ 0)
    (hf : (match sim.current_strategy with
      | AllocationStrategy.FIRST_FIT => find_suitable_segment_first_fit sim.heap_segments n
      | AllocationStrategy.BEST_FIT => find_suitable_segment_best_fit sim.heap_segments n
      | AllocationStrategy.WORST_FIT => find_suitable_segment_worst_fit sim.heap_segments n)
      = some idx) :
    allocate_memory_block n sim =
      (sim.next_process_identifier,
        { sim with
            heap_segments := setAllocatedAt idx sim.next_process_identifier
              (split_memory_segment idx n sim.heap_segments),
            next_process_identifier := sim.next_process_identifier + 1,
            performance_stats :=
              record_successful_allocation (record_allocation_attempt sim.performance_stats) }) := by
  unfold allocate_memory_block
  rw [if_neg hn, hf]

lemma allocate_inv (C n : Nat) (sim : PhysicalMemorySimulator) (h : SegInv C sim) :
    SegInv C (allocate_memory_block n sim).2 := by
  obtain ⟨hcap, hcov, hsum, hpos⟩ := h
  by_cases hn : n = 0
  · subst hn
    rw [allocate_zero]
    exact ⟨hcap, hcov, hsum, hpos⟩
  · cases hf : (match sim.current_strategy with
      | AllocationStrategy.FIRST_FIT => find_suitable_segment_first_fit sim.heap_segments n
      | AllocationStrategy.BEST_FIT => find_suitable_segment_best_fit sim.heap_segments n
      | AllocationStrategy.WORST_FIT => find_suitable_segment_worst_fit sim.heap_segments n)
      with
    | none =>
      rw [allocate_pos_none n sim hn hf]
      exact ⟨hcap, hcov, hsum, hpos⟩
    | some idx =>
      rw [allocate_pos_some n sim idx hn hf]
      refine ⟨hcap, ?_, ?_, ?_⟩
      · show coversFrom 0 (setAllocatedAt idx sim.next_process_identifier
          (split_memory_segment idx n sim.heap_segments)) = true
        rw [setAlloc_covers]
        exact split_covers idx n sim.heap_segments 0 hcov
      · show sumSizes (setAllocatedAt idx sim.next_process_identifier
          (split_memory_segment idx n sim.heap_segments)) = C
        rw [setAlloc_sum, split_sum]
        exact hsum
      · show allPos (setAllocatedAt idx sim.next_process_identifier
          (split_memory_segment idx n sim.heap_segments)) = true
        rw [setAlloc_allPos]
        exact split_allPos idx n sim.heap_segments hn hpos

lemma deallocate_inv (C : Nat) (pid : Int) (sim : PhysicalMemorySimulator)
    (h : SegInv C sim) : SegInv C (deallocate_memory_block pid sim).2 := by
  obtain ⟨hcap, hcov, hsum, hpos⟩ := h
  unfold deallocate_memory_block
  cases hm : markFreeByPid pid sim.heap_segments with
  | none => exact ⟨hcap, hcov, hsum, hpos⟩
  | some segs =>
    obtain ⟨hc, hs, hp⟩ := markFree_props pid sim.heap_segments segs hm
    refine ⟨hcap, ?_, ?_, ?_⟩
    · exact mergeAll_preserves (fun l => coversFrom 0 l = true)
        (fun i l hl => merge_covers i l 0 hl) segs
        (by show coversFrom 0 segs = true; rw [hc 0]; exact hcov)
    · refine mergeAll_preserves (fun l => sumSizes l = C) ?_ segs ?_
      · intro i l hl
        show sumSizes (merge_with_next_segment i l) = C
        rw [merge_sum i l]
        exact hl
      · show sumSizes segs = C
        rw [hs]
        exact hsum
    · exact mergeAll_preserves (fun l => allPos l = true)
        (fun i l hl => merge_allPos i l hl) segs
        (by show allPos segs = true; rw [hp]; exact hpos)

lemma applyOp_inv (C : Nat) (sim : PhysicalMemorySimulator) (op : AllocatorOp)
    (h : SegInv C sim) : SegInv C (applyOp sim op) := by
  cases op with
  | alloc n => exact allocate_inv C n sim h
  | dealloc pid => exact deallocate_inv C pid sim h
  | setStrategy st => exact h

lemma runOps_inv (C : Nat) :
    ∀ (ops : List AllocatorOp) (sim : PhysicalMemorySimulator),
      SegInv C sim → SegInv C (runOps ops sim) := by
  intro ops
  induction ops with
  | nil => intro sim h; exact h
  | cons op ops ih =>
    intro sim h
    exact ih (applyOp sim op) (applyOp_inv C sim op h)

lemma init_inv (C : Nat) (hC : 0 < C) (sim : PhysicalMemorySimulator) :
    SegInv C (init_memory_pool C sim) := by
  refine ⟨rfl, ?_, ?_, ?_⟩
  · simp [init_memory_pool, coversFrom]
  · simp [init_memory_pool, sumSizes]
  · simp [init_memory_pool, allPos]
    omega

/-! ### Characterization of the placement searches -/

lemma drop_cons_succ {α : Type} :
    ∀ (i : Nat) (G : List α) (s : α) (rest : List α),
      G.drop i = s :: rest → G.get? i = some s ∧ G.drop (i + 1) = rest := by
  intro i
  induction i with
  | zero =>
    intro G s rest h
    cases G with
    | nil => cases h
    | cons a g =>
      cases h
      exact ⟨rfl, rfl⟩
  | succ i ih =>
    intro G s rest h
    cases G with
    | nil => simp at h
    | cons a g => exact ih g s rest h

lemma get?_lt {α : Type} (G : List α) (j : Nat) (t : α) (h : G.get? j = some t) :
    j < G.length := (List.get?_eq_some.mp h).1

lemma can_accommodate_le (s : MemorySegment) (n : Nat)
    (h : can_accommodate s n = true) : n ≤ s.segment_size := by
  simp only [can_accommodate, Bool.and_eq_true, decide_eq_true_eq] at h
  exact h.2

lemma bestFitGo_char (n : Nat) (G : List MemorySegment)
    (hsz : ∀ s ∈ G, s.segment_size < SIZE_MAX) :
    ∀ (l : List MemorySegment) (i : Nat) (best : Option Nat) (smallest : Nat),
      G.drop i = l →
      smallest ≤ SIZE_MAX →
      (∀ j t, j < i → G.get? j = some t → can_accommodate t n = true →
        smallest ≤ t.segment_size) →
      (match best with
       | none => (∀ j t, j < i → G.get? j = some t → can_accommodate t n = false) ∧
           smallest = SIZE_MAX
       | some b => b < i ∧
           (∃ s, G.get? b = some s ∧ can_accommodate s n = true ∧
             s.segment_size = smallest) ∧
           (∀ j t, j < b → G.get? j = some t → can_accommodate t n = true →
             smallest < t.segment_size)) →
      BestFitPost G n (bestFitGo n l i best smallest) := by
  intro l
  induction l with
  | nil =>
    intro i best smallest hdrop hsm hsmall hinv
    have hlen : G.length ≤ i := List.drop_eq_nil_iff.mp hdrop
    show BestFitPost G n best
    cases best with
    | none =>
      show NoQualifyingSegment G n
      intro j t hjt
      have hj := get?_lt G j t hjt
      exact hinv.1 j t (by omega) hjt
    | some b =>
      obtain ⟨hbi, ⟨s, hgs, hcan, hseq⟩, hstrict⟩ := hinv
      refine ⟨s, hgs, hcan, ?_, ?_⟩
      · intro j t hjt hcant
        have hj := get?_lt G j t hjt
        have := hsmall j t (by omega) hjt hcant
        omega
      · intro j t hjb hjt hcant
        have := hstrict j t hjb hjt hcant
        omega
  | cons s rest ih =>
    intro i best smallest hdrop hsm hsmall hinv
    obtain ⟨hGi, hdrop'⟩ := drop_cons_succ i G s rest hdrop
    have hsmem : s ∈ G := List.get?_mem hGi
    show BestFitPost G n
      (if can_accommodate s n && decide (s.segment_size < smallest) then
        bestFitGo n rest (i + 1) (some i) s.segment_size
      else bestFitGo n rest (i + 1) best smallest)
    by_cases hcond : (can_accommodate s n && decide (s.segment_size < smallest)) = true
    · rw [if_pos hcond]
      simp only [Bool.and_eq_true, decide_eq_true_eq] at hcond
      obtain ⟨hcan, hlt⟩ := hcond
      refine ih (i + 1) (some i) s.segment_size hdrop'
        (le_of_lt (hsz s hsmem)) ?_ ?_
      · intro j t hji hjt hcant
        by_cases hj : j < i
        · have := hsmall j t hj hjt hcant
          omega
        · have hji2 : j = i := by omega
          subst hji2
          rw [hGi] at hjt
          cases hjt
          exact le_refl _
      · refine ⟨by omega, ⟨s, hGi, hcan, rfl⟩, ?_⟩
        intro j t hji hjt hcant
        have := hsmall j t hji hjt hcant
        omega
    · rw [if_neg hcond]
      by_cases hcan : can_accommodate s n = true
      · have hge : smallest ≤ s.segment_size := by
          by_contra hlt
          refine hcond ?_
          simp only [hcan, Bool.true_and, decide_eq_true_eq]
          omega
        refine ih (i + 1) best smallest hdrop' hsm ?_ ?_
        · intro j t hji hjt hcant
          by_cases hj : j < i
          · exact hsmall j t hj hjt hcant
          · have hji2 : j = i := by omega
            subst hji2
            rw [hGi] at hjt
            cases hjt
            exact hge
        · cases best with
          | none =>
            exfalso
            have hmax := hinv.2
            have hs2 := hsz s hsmem
            omega
          | some b =>
            obtain ⟨hbi, hex, hstrict⟩ := hinv
            exact ⟨by omega, hex, hstrict⟩
      · have hcan' : can_accommodate s n = false := by
          cases hh : can_accommodate s n
          · rfl
          · exact absurd hh hcan
        refine ih (i + 1) best smallest hdrop' hsm ?_ ?_
        · intro j t hji hjt hcant
          by_cases hj : j < i
          · exact hsmall j t hj hjt hcant
          · have hji2 : j = i := by omega
            subst hji2
            rw [hGi] at hjt
            cases hjt
            rw [hcan'] at hcant
            cases hcant
        · cases best with
          | none =>
            refine ⟨?_, hinv.2⟩
            intro j t hji hjt
            by_cases hj : j < i
            · exact hinv.1 j t hj hjt
            · have hji2 : j = i := by omega
              subst hji2
              rw [hGi] at hjt
              cases hjt
              exact hcan'
          | some b =>
            obtain ⟨hbi, hex, hstrict⟩ := hinv
            exact ⟨by omega, hex, hstrict⟩

lemma worstFitGo_char (n : Nat) (hn : 0 < n) (G : List MemorySegment) :
    ∀ (l : List MemorySegment) (i : Nat) (best : Option Nat) (largest : Nat),
      G.drop i = l →
      (∀ j t, j < i → G.get? j = some t → can_accommodate t n = true →
        t.segment_size ≤ largest) →
      (match best with
       | none => (∀ j t, j < i → G.get? j = some t → can_accommodate t n = false) ∧
           largest = 0
       | some b => b < i ∧
           (∃ s, G.get? b = some s ∧ can_accommodate s n = true ∧
             s.segment_size = largest) ∧
           (∀ j t, j < b → G.get? j = some t → can_accommodate t n = true →
             t.segment_size < largest)) →
      WorstFitPost G n (worstFitGo n l i best largest) := by
  intro l
  induction l with
  | nil =>
    intro i best largest hdrop hbig hinv
    have hlen : G.length ≤ i := List.drop_eq_nil_iff.mp hdrop
    show WorstFitPost G n best
    cases best with
    | none =>
      show NoQualifyingSegment G n
      intro j t hjt
      have hj := get?_lt G j t hjt
      exact hinv.1 j t (by omega) hjt
    | some b =>
      obtain ⟨hbi, ⟨s, hgs, hcan, hseq⟩, hstrict⟩ := hinv
      refine ⟨s, hgs, hcan, ?_, ?_⟩
      · intro j t hjt hcant
        have hj := get?_lt G j t hjt
        have := hbig j t (by omega) hjt hcant
        omega
      · intro j t hjb hjt hcant
        have := hstrict j t hjb hjt hcant
        omega
  | cons s rest ih =>
    intro i best largest hdrop hbig hinv
    obtain ⟨hGi, hdrop'⟩ := drop_cons_succ i G s rest hdrop
    have hsmem : s ∈ G := List.get?_mem hGi
    show WorstFitPost G n
      (if can_accommodate s n && decide (largest < s.segment_size) then
        worstFitGo n rest (i + 1) (some i) s.segment_size
      else worstFitGo n rest (i + 1) best largest)
    by_cases hcond : (can_accommodate s n && decide (largest < s.segment_size)) = true
    · rw [if_pos hcond]
      simp only [Bool.and_eq_true, decide_eq_true_eq] at hcond
      obtain ⟨hcan, hlt⟩ := hcond
      refine ih (i + 1) (some i) s.segment_size hdrop' ?_ ?_
      · intro j t hji hjt hcant
        by_cases hj : j < i
        · have := hbig j t hj hjt hcant
          omega
        · have hji2 : j = i := by omega
          subst hji2
          rw [hGi] at hjt
          cases hjt
          exact le_refl _
      · refine ⟨by omega, ⟨s, hGi, hcan, rfl⟩, ?_⟩
        intro j t hji hjt hcant
        have := hbig j t hji hjt hcant
        omega
    · rw [if_neg hcond]
      by_cases hcan : can_accommodate s n = true
      · have hle : s.segment_size ≤ largest := by
          by_contra hlt
          refine hcond ?_
          simp only [hcan, Bool.true_and, decide_eq_true_eq]
          omega
        refine ih (i + 1) best largest hdrop' ?_ ?_
        · intro j t hji hjt hcant
          by_cases hj : j < i
          · exact hbig j t hj hjt hcant
          · have hji2 : j = i := by omega
            subst hji2
            rw [hGi] at hjt
            cases hjt
            exact hle
        · cases best with
          | none =>
            exfalso
            have hzero := hinv.2
            have hnle := can_accommodate_le s n hcan
            omega
          | some b =>
            obtain ⟨hbi, hex, hstrict⟩ := hinv
            exact ⟨by omega, hex, hstrict⟩
      · have hcan' : can_accommodate s n = false := by
          cases hh : can_accommodate s n
          · rfl
          · exact absurd hh hcan
        refine ih (i + 1) best largest hdrop' ?_ ?_
        · intro j t hji hjt hcant
          by_cases hj : j < i
          · exact hbig j t hj hjt hcant
          · have hji2 : j = i := by omega
            subst hji2
            rw [hGi] at hjt
            cases hjt
            rw [hcan'] at hcant
            cases hcant
        · cases best with
          | none =>
            refine ⟨?_, hinv.2⟩
            intro j t hji hjt
            by_cases hj : j < i
            · exact hinv.1 j t hj hjt
            · have hji2 : j = i := by omega
              subst hji2
              rw [hGi] at hjt
              cases hjt
              exact hcan'
          | some b =>
            obtain ⟨hbi, hex, hstrict⟩ := hinv
            exact ⟨by omega, hex, hstrict⟩

lemma best_fit_spec (segs : List MemorySegment) (n : Nat)
    (hsz : ∀ s ∈ segs, s.segment_size < SIZE_MAX) :
    BestFitPost segs n (find_suitable_segment_best_fit segs n) := by
  refine bestFitGo_char n segs hsz segs 0 none SIZE_MAX rfl (le_refl _) ?_ ?_
  · intro j t hj hjt hcant
    exact absurd hj (Nat.not_lt_zero j)
  · exact ⟨fun j t hj hjt => absurd hj (Nat.not_lt_zero j), rfl⟩

lemma worst_fit_spec (segs : List MemorySegment) (n : Nat) (hn : 0 < n) :
    WorstFitPost segs n (find_suitable_segment_worst_fit segs n) := by
  refine worstFitGo_char n hn segs segs 0 none 0 rfl ?_ ?_
  · intro j t hj hjt hcant
    exact absurd hj (Nat.not_lt_zero j)
  · exact ⟨fun j t hj hjt => absurd hj (Nat.not_lt_zero j), rfl⟩

/-! ### Claim theorems -/

/-- C2: for every sequence of allocator requests (allocate, deallocate,
strategy changes) issued after initializing a pool of capacity `C > 0`,
the segment list partitions `[0, C)` exactly: it covers the range
contiguously starting at address 0, the segment sizes sum to `C`, each
segment ends exactly where the next begins (hence no overlaps and no
gaps), and base addresses are strictly increasing. -/
theorem C2_segment_list_partitions (C : Nat) (hC : 0 < C) (ops : List AllocatorOp) :
    coversFrom 0 (runOps ops (init_memory_pool C
      PhysicalMemorySimulator.initial)).heap_segments = true ∧
    sumSizes (runOps ops (init_memory_pool C
      PhysicalMemorySimulator.initial)).heap_segments = C ∧
    List.Chain' (fun s t => s.base_address + s.segment_size = t.base_address)
      (runOps ops (init_memory_pool C PhysicalMemorySimulator.initial)).heap_segments ∧
    List.Chain' (fun s t => s.base_address < t.base_address)
      (runOps ops (init_memory_pool C PhysicalMemorySimulator.initial)).heap_segments := by
  obtain ⟨hcap, hcov, hsum, hpos⟩ :=
    runOps_inv C ops (init_memory_pool C PhysicalMemorySimulator.initial)
      (init_inv C hC PhysicalMemorySimulator.initial)
  exact ⟨hcov, hsum, chain'_contig_of_covers 0 _ hcov, chain'_lt_of_covers 0 _ hcov hpos⟩

/-- Witness for C2 at capacity 1000 with the spec's §8 allocator scenario. -/
theorem C2_segment_list_partitions_witness :
    0 < 1000 ∧
    (coversFrom 0 (runOps [AllocatorOp.alloc 200, AllocatorOp.alloc 100,
        AllocatorOp.dealloc 1]
      (init_memory_pool 1000 PhysicalMemorySimulator.initial)).heap_segments = true ∧
    sumSizes (runOps [AllocatorOp.alloc 200, AllocatorOp.alloc 100,
        AllocatorOp.dealloc 1]
      (init_memory_pool 1000 PhysicalMemorySimulator.initial)).heap_segments = 1000 ∧
    List.Chain' (fun s t => s.base_address + s.segment_size = t.base_address)
      (runOps [AllocatorOp.alloc 200, AllocatorOp.alloc 100, AllocatorOp.dealloc 1]
        (init_memory_pool 1000 PhysicalMemorySimulator.initial)).heap_segments ∧
    List.Chain' (fun s t => s.base_address < t.base_address)
      (runOps [AllocatorOp.alloc 200, AllocatorOp.alloc 100, AllocatorOp.dealloc 1]
        (init_memory_pool 1000 PhysicalMemorySimulator.initial)).heap_segments) :=
  ⟨by decide, C2_segment_list_partitions 1000 (by decide)
    [AllocatorOp.alloc 200, AllocatorOp.alloc 100, AllocatorOp.dealloc 1]⟩

/-- C3: on every segment list whose adjacent segments are contiguous (as
the §3 invariants guarantee), the coalescing pass terminates: the loop,
given one unit of fuel per iteration with budget `2 * length`, returns a
result; the result has no adjacent free pair left, and its length is at
most the input length since each merge strictly decreases the count. -/
theorem C3_coalescing_terminates (segs : List MemorySegment)
    (hcont : adjacent_contiguous segs = true) :
    ∃ r, mergeLoop (2 * segs.length) 0 segs = some r ∧
      no_adjacent_free r = true ∧ r.length ≤ segs.length := by
  have h := mergeLoop_isSome (2 * segs.length) 0 segs hcont (by omega)
  cases hm : mergeLoop (2 * segs.length) 0 segs with
  | none => rw [hm] at h; cases h
  | some r =>
    refine ⟨r, rfl, ?_, ?_⟩
    · exact noAdj_of_bothFree r (mergeLoop_noAdjFree (2 * segs.length) 0 segs r hm
        (fun j hj => absurd hj (Nat.not_lt_zero j)))
    · exact mergeLoop_preserves (fun l => l.length ≤ segs.length)
        (fun i l hl => le_trans (merge_length_le i l) hl)
        (2 * segs.length) 0 segs r hm (le_refl _)

/-- Witness for C3 on a three-segment list with a mergeable free pair. -/
theorem C3_coalescing_terminates_witness :
    adjacent_contiguous [(⟨0, 5, true, -1⟩ : MemorySegment), ⟨5, 5, true, -1⟩,
      ⟨10, 3, false, 2⟩] = true ∧
    ∃ r, mergeLoop (2 * ([(⟨0, 5, true, -1⟩ : MemorySegment), ⟨5, 5, true, -1⟩,
        ⟨10, 3, false, 2⟩] : List MemorySegment).length) 0
        [(⟨0, 5, true, -1⟩ : MemorySegment), ⟨5, 5, true, -1⟩, ⟨10, 3, false, 2⟩]
        = some r ∧
      no_adjacent_free r = true ∧
      r.length ≤ ([(⟨0, 5, true, -1⟩ : MemorySegment), ⟨5, 5, true, -1⟩,
        ⟨10, 3, false, 2⟩] : List MemorySegment).length :=
  ⟨by decide, C3_coalescing_terminates
    [⟨0, 5, true, -1⟩, ⟨5, 5, true, -1⟩, ⟨10, 3, false, 2⟩] (by decide)⟩

/-- C4: after any deallocate call returns, on a state whose segment list
covers its range contiguously from 0 and has no adjacent free pair (the
§3 invariants), no two consecutive segments of the resulting list are
both free. -/
theorem C4_no_adjacent_free_after_deallocate (sim : PhysicalMemorySimulator)
    (pid : Int)
    (hcov : coversFrom 0 sim.heap_segments = true)
    (hnadj : no_adjacent_free sim.heap_segments = true) :
    no_adjacent_free (deallocate_memory_block pid sim).2.heap_segments = true := by
  unfold deallocate_memory_block
  cases hm : markFreeByPid pid sim.heap_segments with
  | none => exact hnadj
  | some segs =>
    show no_adjacent_free (merge_adjacent_free_segments segs) = true
    have hcov' : coversFrom 0 segs = true := by
      rw [(markFree_props pid sim.heap_segments segs hm).1 0]
      exact hcov
    have hcont : adjacent_contiguous segs = true := covers_contig 0 segs hcov'
    have hsome := mergeLoop_isSome (2 * segs.length) 0 segs hcont (by omega)
    unfold merge_adjacent_free_segments
    cases hml : mergeLoop (2 * segs.length) 0 segs with
    | none => rw [hml] at hsome; cases hsome
    | some r =>
      show no_adjacent_free r = true
      exact noAdj_of_bothFree r (mergeLoop_noAdjFree (2 * segs.length) 0 segs r hml
        (fun j hj => absurd hj (Nat.not_lt_zero j)))

/-- Witness for C4: deallocating pid 1 out of a two-segment layout. -/
theorem C4_no_adjacent_free_after_deallocate_witness :
    (coversFrom 0 (PhysicalMemorySimulator.mk
      [⟨0, 200, false, 1⟩, ⟨200, 800, true, -1⟩] 1000 2
      AllocationStrategy.FIRST_FIT ⟨1, 1, 0⟩).heap_segments = true ∧
    no_adjacent_free (PhysicalMemorySimulator.mk
      [⟨0, 200, false, 1⟩, ⟨200, 800, true, -1⟩] 1000 2
      AllocationStrategy.FIRST_FIT ⟨1, 1, 0⟩).heap_segments = true) ∧
    no_adjacent_free (deallocate_memory_block 1 (PhysicalMemorySimulator.mk
      [⟨0, 200, false, 1⟩, ⟨200, 800, true, -1⟩] 1000 2
      AllocationStrategy.FIRST_FIT ⟨1, 1, 0⟩)).2.heap_segments = true :=
  ⟨⟨by decide, by decide⟩, C4_no_adjacent_free_after_deallocate
    (PhysicalMemorySimulator.mk [⟨0, 200, false, 1⟩, ⟨200, 800, true, -1⟩] 1000 2
      AllocationStrategy.FIRST_FIT ⟨1, 1, 0⟩) 1 (by decide) (by decide)⟩

/-- C5 (counterexample to the claim as stated): a layout consisting of a
single free segment of size `SIZE_MAX` qualifies for a request of size 1,
yet best fit selects nothing: the sentinel seed `smallest = SIZE_MAX`
together with the strict comparison never selects a qualifying segment of
size exactly `SIZE_MAX`, so the claimed minimum-size selection fails on
this layout. -/
theorem C5_best_fit_counterexample :
    can_accommodate ⟨0, SIZE_MAX, true, -1⟩ 1 = true ∧
    find_suitable_segment_best_fit [⟨0, SIZE_MAX, true, -1⟩] 1 = none := by
  decide

/-- C5 (amended): provided every segment size is strictly below the
best-fit sentinel `SIZE_MAX` and the request size is non-zero, both
placement searches are the deterministic functions of the layout that the
spec describes: best fit returns the earliest index carrying a qualifying
segment of minimum size, worst fit the earliest index carrying a
qualifying segment of maximum size, and either returns `none` exactly
when no segment qualifies. -/
theorem C5_strategy_determinism (segs : List MemorySegment) (n : Nat)
    (hn : 0 < n) (hsz : ∀ s ∈ segs, s.segment_size < SIZE_MAX) :
    BestFitPost segs n (find_suitable_segment_best_fit segs n) ∧
    WorstFitPost segs n (find_suitable_segment_worst_fit segs n) :=
  ⟨best_fit_spec segs n hsz, worst_fit_spec segs n hn⟩

/-- Witness for C5 on a three-segment layout with request size 3. -/
theorem C5_strategy_determinism_witness :
    (0 < 3 ∧ ∀ s ∈ ([⟨0, 10, true, -1⟩, ⟨10, 4, true, -1⟩,
        ⟨14, 4, true, -1⟩] : List MemorySegment), s.segment_size < SIZE_MAX) ∧
    BestFitPost [⟨0, 10, true, -1⟩, ⟨10, 4, true, -1⟩, ⟨14, 4, true, -1⟩] 3
      (find_suitable_segment_best_fit
        [⟨0, 10, true, -1⟩, ⟨10, 4, true, -1⟩, ⟨14, 4, true, -1⟩] 3) ∧
    WorstFitPost [⟨0, 10, true, -1⟩, ⟨10, 4, true, -1⟩, ⟨14, 4, true, -1⟩] 3
      (find_suitable_segment_worst_fit
        [⟨0, 10, true, -1⟩, ⟨10, 4, true, -1⟩, ⟨14, 4, true, -1⟩] 3) :=
  ⟨⟨by decide, by decide⟩,
    (C5_strategy_determinism
      [⟨0, 10, true, -1⟩, ⟨10, 4, true, -1⟩, ⟨14, 4, true, -1⟩] 3
      (by decide) (by decide)).1,
    (C5_strategy_determinism
      [⟨0, 10, true, -1⟩, ⟨10, 4, true, -1⟩, ⟨14, 4, true, -1⟩] 3
      (by decide) (by decide)).2⟩

/-- C6: the allocator error paths are atomic and distinguishable: a
zero-size allocate returns the failure value -1, records exactly one more
attempt and one more failure (successes untouched) and leaves the segment
list unchanged; deallocating a process id with no matching allocated
segment returns the not-found value `false` and leaves the entire state
unchanged. -/
theorem C6_error_paths_atomic (sim : PhysicalMemorySimulator) (pid : Int)
    (h : ∀ s ∈ sim.heap_segments, s.is_available = true ∨ s.process_id ≠ pid) :
    (allocate_memory_block 0 sim).1 = -1 ∧
    (allocate_memory_block 0 sim).2.heap_segments = sim.heap_segments ∧
    (allocate_memory_block 0 sim).2.performance_stats.total_allocation_attempts =
      sim.performance_stats.total_allocation_attempts + 1 ∧
    (allocate_memory_block 0 sim).2.performance_stats.failed_allocations =
      sim.performance_stats.failed_allocations + 1 ∧
    (allocate_memory_block 0 sim).2.performance_stats.successful_allocations =
      sim.performance_stats.successful_allocations ∧
    (deallocate_memory_block pid sim).1 = false ∧
    (deallocate_memory_block pid sim).2 = sim := by
  have hd : deallocate_memory_block pid sim = (false, sim) := by
    unfold deallocate_memory_block
    rw [markFree_none pid sim.heap_segments h]
  rw [allocate_zero, hd]
  exact ⟨rfl, rfl, rfl, rfl, rfl, rfl, rfl⟩

/-- Witness for C6 on a one-segment free pool and an unknown pid. -/
theorem C6_error_paths_atomic_witness :
    (∀ s ∈ (PhysicalMemorySimulator.mk [⟨0, 10, true, -1⟩] 10 1
        AllocationStrategy.FIRST_FIT ⟨0, 0, 0⟩).heap_segments,
      s.is_available = true ∨ s.process_id ≠ 5) ∧
    ((allocate_memory_block 0 (PhysicalMemorySimulator.mk [⟨0, 10, true, -1⟩] 10 1
        AllocationStrategy.FIRST_FIT ⟨0, 0, 0⟩)).1 = -1 ∧
    (allocate_memory_block 0 (PhysicalMemorySimulator.mk [⟨0, 10, true, -1⟩] 10 1
        AllocationStrategy.FIRST_FIT ⟨0, 0, 0⟩)).2.heap_segments =
      (PhysicalMemorySimulator.mk [⟨0, 10, true, -1⟩] 10 1
        AllocationStrategy.FIRST_FIT ⟨0, 0, 0⟩).heap_segments ∧
    (allocate_memory_block 0 (PhysicalMemorySimulator.mk [⟨0, 10, true, -1⟩] 10 1
        AllocationStrategy.FIRST_FIT
        ⟨0, 0, 0⟩)).2.performance_stats.total_allocation_attempts =
      (PhysicalMemorySimulator.mk [⟨0, 10, true, -1⟩] 10 1
        AllocationStrategy.FIRST_FIT
        ⟨0, 0, 0⟩).performance_stats.total_allocation_attempts + 1 ∧
    (allocate_memory_block 0 (PhysicalMemorySimulator.mk [⟨0, 10, true, -1⟩] 10 1
        AllocationStrategy.FIRST_FIT
        ⟨0, 0, 0⟩)).2.performance_stats.failed_allocations =
      (PhysicalMemorySimulator.mk [⟨0, 10, true, -1⟩] 10 1
        AllocationStrategy.FIRST_FIT ⟨0, 0, 0⟩).performance_stats.failed_allocations
        + 1 ∧
    (allocate_memory_block 0 (PhysicalMemorySimulator.mk [⟨0, 10, true, -1⟩] 10 1
        AllocationStrategy.FIRST_FIT
        ⟨0, 0, 0⟩)).2.performance_stats.successful_allocations =
      (PhysicalMemorySimulator.mk [⟨0, 10, true, -1⟩] 10 1
        AllocationStrategy.FIRST_FIT
        ⟨0, 0, 0⟩).performance_stats.successful_allocations ∧
    (deallocate_memory_block 5 (PhysicalMemorySimulator.mk [⟨0, 10, true, -1⟩] 10 1
        AllocationStrategy.FIRST_FIT ⟨0, 0, 0⟩)).1 = false ∧
    (deallocate_memory_block 5 (PhysicalMemorySimulator.mk [⟨0, 10, true, -1⟩] 10 1
        AllocationStrategy.FIRST_FIT ⟨0, 0, 0⟩)).2 =
      PhysicalMemorySimulator.mk [⟨0, 10, true, -1⟩] 10 1
        AllocationStrategy.FIRST_FIT ⟨0, 0, 0⟩) :=
  ⟨by decide, C6_error_paths_atomic
    (PhysicalMemorySimulator.mk [⟨0, 10, true, -1⟩] 10 1
      AllocationStrategy.FIRST_FIT ⟨0, 0, 0⟩) 5 (by decide)⟩

/-- C7: on a fresh cache of capacity 64 and block size 16 (4 blocks), the
access sequence 0, 0, 64, 0 yields miss, hit, miss, miss.  After the two
accesses to address 0, block 0 is valid with tag 0 and the FIFO queue
holds exactly index 0; address 64 maps to index 0 with tag 1, so the
third access evicts the tag-0 block at index 0 and reloads the slot with
tag 1, which is why the fourth access to address 0 misses again. -/
theorem C7_cache_scenario :
    ((CacheLevel.construct 64 16).map fun c => (runAccesses c [0, 0, 64, 0]).1)
      = some [false, true, false, false] ∧
    ((CacheLevel.construct 64 16).map fun c =>
      (fun c2 =>
        (calculate_block_index c2 64, extract_tag c2 64, c2.fifo_queue,
         (c2.cache_blocks.getD 0 CacheBlock.init).valid,
         (c2.cache_blocks.getD 0 CacheBlock.init).tag,
         ((access_memory c2 64).2.cache_blocks.getD 0 CacheBlock.init).tag))
        (runAccesses c [0, 0]).2)
      = some (0, 1, [0], true, 0, 1) := by
  decide

/-- C1 (evaluation at the failing input): on a fresh 64/16 cache, after
accesses to 0 and 16 the FIFO queue is [0, 1] and both blocks are valid;
address 80 maps to index 1 with tag 1 while the occupant of index 1 holds
tag 0, so the access is a miss that must evict — but the eviction pops
index 0 from the queue front and invalidates block 0, not the index-1
slot that is then repopulated, and the queue afterwards holds index 1
twice. -/
theorem C1_eviction_pops_wrong_slot :
    ((CacheLevel.construct 64 16).map fun c =>
      (fun c2 =>
        (c2.fifo_queue,
         calculate_block_index c2 80, extract_tag c2 80,
         (c2.cache_blocks.getD 1 CacheBlock.init).valid,
         (c2.cache_blocks.getD 1 CacheBlock.init).tag))
        (runAccesses c [0, 16]).2)
      = some ([0, 1], 1, 1, true, 0) ∧
    ((CacheLevel.construct 64 16).map fun c =>
      (fun c2 =>
        ((c2.cache_blocks.getD 0 CacheBlock.init).valid,
         ((access_memory c2 80).2.cache_blocks.getD 0 CacheBlock.init).valid,
         (access_memory c2 80).2.fifo_queue))
        (runAccesses c [0, 16]).2)
      = some (true, false, [1, 1]) := by
  exact ⟨by decide, by decide⟩

/-- C8: flush is metrics-preserving and idempotent: it leaves the access,
hit and miss counters exactly as they were; flushing an already-flushed
cache changes nothing (same block array, FIFO queue and metrics); and a
flushed cache has an empty FIFO queue with every block invalid, tag 0 and
stored address 0. -/
theorem C8_flush_idempotent (c : CacheLevel) :
    (flush_cache c).performance_metrics = c.performance_metrics ∧
    flush_cache (flush_cache c) = flush_cache c ∧
    (flush_cache c).fifo_queue = [] ∧
    ∀ b ∈ (flush_cache c).cache_blocks,
      b.valid = false ∧ b.tag = 0 ∧ b.data_address = 0 := by
  refine ⟨rfl, ?_, rfl, ?_⟩
  · show ({ c with
        cache_blocks := (c.cache_blocks.map CacheBlock.invalidate).map CacheBlock.invalidate,
        fifo_queue := ([] : List Nat) } : CacheLevel) =
      { c with cache_blocks := c.cache_blocks.map CacheBlock.invalidate,
               fifo_queue := ([] : List Nat) }
    rw [List.map_map]
    rfl
  · intro b hb
    rw [show (flush_cache c).cache_blocks = c.cache_blocks.map CacheBlock.invalidate
      from rfl] at hb
    obtain ⟨a, ha, rfl⟩ := List.mem_map.mp hb
    exact ⟨rfl, rfl, rfl⟩

/-- C9: every derived rate is guarded against a zero denominator and then
returns exactly 0: the allocator success rate with no recorded attempt,
and a cache level's hit and miss ratios with no recorded access. -/
theorem C9_zero_denominator_guards (st : MemoryStatistics) (m : CacheMetrics)
    (h1 : st.total_allocation_attempts = 0) (h2 : m.total_accesses = 0) :
    MemoryStatistics.get_success_rate st = 0 ∧
    CacheMetrics.get_hit_ratio m = 0 ∧ CacheMetrics.get_miss_ratio m = 0 := by
  unfold MemoryStatistics.get_success_rate CacheMetrics.get_hit_ratio
    CacheMetrics.get_miss_ratio
  rw [if_pos h1, if_pos h2, if_pos h2]
  exact ⟨rfl, rfl, rfl⟩

/-- Witness for C9 at the freshly constructed counters. -/
theorem C9_zero_denominator_guards_witness :
    ((MemoryStatistics.mk 0 0 0).total_allocation_attempts = 0 ∧
      (CacheMetrics.mk 0 0 0).total_accesses = 0) ∧
    (MemoryStatistics.get_success_rate (MemoryStatistics.mk 0 0 0) = 0 ∧
      CacheMetrics.get_hit_ratio (CacheMetrics.mk 0 0 0) = 0 ∧
      CacheMetrics.get_miss_ratio (CacheMetrics.mk 0 0 0) = 0) :=
  ⟨⟨rfl, rfl⟩, C9_zero_denominator_guards (MemoryStatistics.mk 0 0 0)
    (CacheMetrics.mk 0 0 0) rfl rfl⟩

/-- C10: allocating any non-zero size on an allocator whose segment list
is empty (the pool was never initialized) takes the same no-space failure
path as resource exhaustion: the result is the failure value -1, one more
attempt and one more failure are recorded, successes are untouched and
the segment list stays empty. -/
theorem C10_alloc_on_uninitialized_pool (sim : PhysicalMemorySimulator) (n : Nat)
    (hseg : sim.heap_segments = []) (hn : 0 < n) :
    (allocate_memory_block n sim).1 = -1 ∧
    (allocate_memory_block n sim).2.heap_segments = [] ∧
    (allocate_memory_block n sim).2.performance_stats.total_allocation_attempts =
      sim.performance_stats.total_allocation_attempts + 1 ∧
    (allocate_memory_block n sim).2.performance_stats.failed_allocations =
      sim.performance_stats.failed_allocations + 1 ∧
    (allocate_memory_block n sim).2.performance_stats.successful_allocations =
      sim.performance_stats.successful_allocations := by
  have hf : (match sim.current_strategy with
      | AllocationStrategy.FIRST_FIT =>
          find_suitable_segment_first_fit sim.heap_segments n
      | AllocationStrategy.BEST_FIT =>
          find_suitable_segment_best_fit sim.heap_segments n
      | AllocationStrategy.WORST_FIT =>
          find_suitable_segment_worst_fit sim.heap_segments n) = none := by
    rw [hseg]
    cases sim.current_strategy <;> rfl
  rw [allocate_pos_none n sim (by omega) hf]
  exact ⟨rfl, hseg, rfl, rfl, rfl⟩

/-- Witness for C10 on the default-constructed simulator, request size 7. -/
theorem C10_alloc_on_uninitialized_pool_witness :
    (PhysicalMemorySimulator.initial.heap_segments = [] ∧ 0 < 7) ∧
    ((allocate_memory_block 7 PhysicalMemorySimulator.initial).1 = -1 ∧
    (allocate_memory_block 7 PhysicalMemorySimulator.initial).2.heap_segments = [] ∧
    (allocate_memory_block 7
      PhysicalMemorySimulator.initial).2.performance_stats.total_allocation_attempts =
      PhysicalMemorySimulator.initial.performance_stats.total_allocation_attempts + 1 ∧
    (allocate_memory_block 7
      PhysicalMemorySimulator.initial).2.performance_stats.failed_allocations =
      PhysicalMemorySimulator.initial.performance_stats.failed_allocations + 1 ∧
    (allocate_memory_block 7
      PhysicalMemorySimulator.initial).2.performance_stats.successful_allocations =
      PhysicalMemorySimulator.initial.performance_stats.successful_allocations) :=
  ⟨⟨rfl, by decide⟩, C10_alloc_on_uninitialized_pool
    PhysicalMemorySimulator.initial 7 rfl (by decide)⟩
